import Mathlib

/-!
Verification of the tarski library (tar archive creation/extraction with
extended-attribute preservation and stream checksums).

The Go sources are embedded shallowly:

* Go strings are modelled as `GoStr := List Char` (a Go string is a byte
  sequence; all characters relevant to the code, such as the path separator
  and the NUL terminator, are single bytes, so byte indexing and character
  indexing coincide on the inputs of interest).
* Go `error` values are modelled by `Option GoErr` (`none` is the `nil`
  error); distinguished errors created by the library get their own
  constructors.
* OS and standard-library collaborators (syscalls, `os.OpenFile`,
  `os.MkdirAll`, the tar codec, the hash) are modelled by their documented
  contracts: either as oracle parameters recording the outcome of each call,
  or as operations on an explicit filesystem state.
* Functions keep their Go names where Lean allows it.
-/

/-- Go `error` values produced or propagated by the library. `eof` models
`io.EOF`; the other named constructors model the distinguished errors the
library itself creates; `msg` models any other error coming from a
collaborator. -/
inductive GoErr where
  | eof
  | eexist
  | enotdir
  | changed
  | noValidKey
  | noValidValue
  | sizeMismatch (expected got : Int)
  | msg (s : String)
deriving DecidableEq

/-- A Go string, modelled as its sequence of (byte-sized) characters. -/
abbrev GoStr := List Char

/-- Association-list lookup used to model Go map reads and filesystem path
lookups (first binding wins; updates are pushed to the front). -/
def findVal (m : List (GoStr × GoStr)) (k : GoStr) : Option GoStr :=
  match m with
  | [] => none
  | kv :: rest => if kv.1 = k then some kv.2 else findVal rest k

/-- Association-list update used to model Go map writes (`m[k] = v`): keys
stay unique, the new binding replaces any previous one. -/
def setVal (m : List (GoStr × GoStr)) (k v : GoStr) : List (GoStr × GoStr) :=
  (k, v) :: m.filter (fun kv => kv.1 ≠ k)

/-- Model of Go `strings.TrimPrefix(s, p)`: removes `p` from the front of
`s` when it is a prefix, otherwise returns `s` unchanged. -/
def trimPref (s p : GoStr) : GoStr :=
  if p.isPrefixOf s then s.drop p.length else s

/-- The leading-separator strip inside `cleanEntry`: Go tests
`entry[0:1] == "/"` and slices `entry[1:]`. -/
def dropLeadSlash (s : GoStr) : GoStr :=
  if s.head? = some '/' then s.drop 1 else s

/-- Translation of `cleanEntry` (src/tarski.go lines 111-126): trims the
prefix; returns the remainder unchanged when it is `""` or `"/"`; otherwise
strips a single leading `/` and, for directories, appends a trailing `/`
when one is not already present. Note the `"/"` remainder is returned as
`"/"`, not as the empty string. -/
def cleanEntry (isDir : Bool) (path pfx : GoStr) : GoStr :=
  let entry := trimPref path pfx
  if entry = [] ∨ entry = ['/'] then entry
  else
    let e2 := dropLeadSlash entry
    if isDir ∧ e2.getLast? ≠ some '/' then e2 ++ ['/'] else e2

/-- Modelled from the spec (section 4.1, claim C6): the entry-naming
transform as the specification words it, where an empty name is produced
both when the prefix equals the path and when the remainder is the root
`"/"` itself. Kept separate from `cleanEntry` (the translation of the
source) so the two can be compared. -/
def cleanEntrySpecC6 (isDir : Bool) (path pfx : GoStr) : GoStr :=
  let entry := trimPref path pfx
  if entry = [] ∨ entry = ['/'] then []
  else
    let e2 := dropLeadSlash entry
    if isDir ∧ e2.getLast? ≠ some '/' then e2 ++ ['/'] else e2

/-- One step of the lexical path normalization of Go `path/filepath.Clean`
(unix rules), processing one `/`-separated component against the stack of
components kept so far (stored in reverse). Empty components and `.` are
dropped; `..` pops a non-`..` component, is dropped at the root, and is
kept otherwise. -/
def cleanStep (rooted : Bool) (acc : List GoStr) (c : GoStr) : List GoStr :=
  if c = [] ∨ c = ['.'] then acc
  else if c = ['.', '.'] then
    match acc with
    | [] => if rooted then [] else [c]
    | a :: rest => if a = ['.', '.'] then c :: acc else rest
  else c :: acc

/-- Model of Go `path/filepath.Clean` (unix): shortest lexical equivalent
path, `"."` for the empty result. -/
def clean (p : GoStr) : GoStr :=
  if p = [] then ['.']
  else
    let rooted := p.head? = some '/'
    let comps := (p.splitOn '/').foldl (cleanStep rooted) []
    let out := (if rooted then ['/'] else []) ++ List.intercalate ['/'] comps.reverse
    if out = [] then ['.'] else out

/-- Model of Go `path/filepath.Join(a, b)`: empty elements are skipped, the
rest are joined with `/` and cleaned; all-empty input yields `""`. -/
def goJoin (a b : GoStr) : GoStr :=
  if a = [] ∧ b = [] then []
  else if a = [] then clean b
  else if b = [] then clean a
  else clean (a ++ '/' :: b)

/-- Everything up to and including the last `/` of a path (empty when the
path has no `/`), as computed inside Go `path/filepath.Dir`. -/
def dropLastComp (p : GoStr) : GoStr :=
  ((p.reverse).dropWhile (fun c => c ≠ '/')).reverse

/-- Model of Go `path/filepath.Dir`: all but the last path element,
cleaned; `"."` when the path holds no separator. -/
def goDir (p : GoStr) : GoStr :=
  clean (dropLastComp p)

/-! ## Xattr accessor (`llistxattr`, `GetAllXattr`) -/

/-- Map from attribute name to attribute value, modelling the Go
`map[string]string` of extended attributes. -/
abbrev XattrMap := List (GoStr × GoStr)

/-- Outcomes of the extended-attribute syscalls for one path, the
collaborators of `GetAllXattr` (src/tarski.go lines 371-389 and the `unix`
package). Each field records the `(size, error)` pair a call returns;
`listBuf` and `getBuf` record the bytes a fetching call stores into the
caller's buffer. `llistPre` is `llistxattr(path, nil)`, `llistPost` is
`llistxattr(path, dest)`; `getPre name` is `Getxattr(path, name, nil)` and
`getPost name` is `Getxattr(path, name, dest)`. -/
structure XattrSys where
  llistPre : Int × Option GoErr
  llistPost : Int × Option GoErr
  listBuf : GoStr
  getPre : GoStr → Int × Option GoErr
  getPost : GoStr → Int × Option GoErr
  getBuf : GoStr → GoStr

/-- The NUL byte separating attribute names in the `llistxattr` result. -/
def nulChar : Char := Char.ofNat 0

/-- The trailing-empty-token drop of `GetAllXattr` (src/tarski.go lines
423-425): the name list ends in a NUL terminator, so the split produces a
final empty string, which is removed. -/
def dropTrailingNul (l : List GoStr) : List GoStr :=
  if l.getLast? = some [] then l.dropLast else l

/-- The per-name value loop of `GetAllXattr` (src/tarski.go lines
429-449): for each listed name, query the value size, reject a zero size,
fetch into a buffer of that size, reject a size disagreement with the
distinguished `changed` error, and record the value. -/
def getValuesLoop (sys : XattrSys) : List GoStr → XattrMap → Option XattrMap × Option GoErr
  | [], acc => (some acc, none)
  | x :: rest, acc =>
    let pre := sys.getPre x
    if pre.2.isSome ∨ pre.1 < 0 then (none, pre.2)
    else if pre.1 = 0 then (none, some GoErr.noValidValue)
    else
      let post := sys.getPost x
      if post.2.isSome ∨ post.1 < 0 then (none, post.2)
      else if post.1 ≠ pre.1 then (none, some GoErr.changed)
      else getValuesLoop sys rest (setVal acc x (sys.getBuf x))

/-- Translation of `GetAllXattr` (src/tarski.go lines 393-452): two-phase
list-size query with a consistency check, NUL-token parsing of the name
list, then the per-name two-phase value fetch. Returns the Go pair
`(xattrs, err)`. -/
def GetAllXattr (sys : XattrSys) : Option XattrMap × Option GoErr :=
  let pre := sys.llistPre
  if pre.2.isSome ∨ pre.1 < 0 then (none, pre.2)
  else if pre.1 = 0 then (none, none)
  else
    let post := sys.llistPost
    if post.2.isSome ∨ post.1 < 0 then (none, post.2)
    else if post.1 ≠ pre.1 then (none, some GoErr.changed)
    else
      let split := sys.listBuf.splitOn nulChar
      if split = [] then (none, some GoErr.noValidKey)
      else getValuesLoop sys (dropTrailingNul split) []

/-! ## Extraction (`doExtract`, `ExtractDir`, `ExtractReg`, `ExtractSymlink`, `ExtractDev`) -/

/-- The fields of `tar.Header` the extractor reads (archive/tar
collaborator). `typeflag` is the tar type byte (`'5'` directory, `'2'`
symlink, `'3'` char device, `'4'` block device, `'0'` regular, `'1'` hard
link, `'6'` fifo, ...). -/
structure Header where
  typeflag : Char
  name : GoStr
  linkname : GoStr
  size : Int
  mode : Nat
  uid : Int
  gid : Int
  xattrs : XattrMap
deriving DecidableEq

/-- Size reported by `h.FileInfo()` for a tar header: the archive/tar
`headerFileInfo.Size` returns the header's `Size` field. -/
def fiSize (h : Header) : Int := h.size

/-- Explicit filesystem state for the extraction model: directories,
regular files with their contents, and symbolic links with their targets,
each keyed by path. -/
structure FS where
  dirs : List GoStr
  files : List (GoStr × GoStr)
  links : List (GoStr × GoStr)
deriving DecidableEq

/-- The empty destination filesystem. -/
def emptyFS : FS := ⟨[], [], []⟩

/-- Per-entry outcomes of the OS calls whose results do not follow from the
modelled filesystem state: a metadata or close call either succeeds
(`none`) or fails with the recorded error. `setxattrErr` gives the outcome
of `unix.Setxattr` per attribute name. -/
structure EntryOps where
  mkdirErr : Option GoErr
  openErr : Option GoErr
  closeErr : Option GoErr
  chownErr : Option GoErr
  setxattrErr : GoStr → Option GoErr
  chtimesErr : Option GoErr
  symlinkErr : Option GoErr
  utimesErr : Option GoErr

/-- Oracle where every OS call succeeds. -/
def noErrOps : EntryOps :=
  ⟨none, none, none, none, fun _ => none, none, none, none⟩

/-- Model of the POSIX `os.MkdirAll` contract: fails when a non-directory
occupies the path, succeeds (without change) when the directory exists,
otherwise records the directory. Creation of intermediate parents is
abstracted into the single recorded path; file and link entries are never
touched. -/
def mkdirAll (fs : FS) (p : GoStr) (oe : Option GoErr) : Except GoErr FS :=
  match oe with
  | some e => .error e
  | none =>
    if (findVal fs.files p).isSome ∨ (findVal fs.links p).isSome then .error GoErr.enotdir
    else if p ∈ fs.dirs then .ok fs
    else .ok { fs with dirs := p :: fs.dirs }

/-- Model of the `os.OpenFile(entry, O_EXCL|O_WRONLY|O_CREATE, mode)`
contract: fails with `eexist` when anything already occupies the path,
otherwise creates an empty file there. -/
def openExcl (fs : FS) (p : GoStr) (oe : Option GoErr) : Except GoErr FS :=
  if (findVal fs.files p).isSome ∨ p ∈ fs.dirs ∨ (findVal fs.links p).isSome then
    .error GoErr.eexist
  else
    match oe with
    | some e => .error e
    | none => .ok { fs with files := (p, []) :: fs.files }

/-- Model of the `os.Symlink(target, entry)` contract: fails when anything
already occupies the path, otherwise records the link. -/
def symlinkCreate (fs : FS) (p target : GoStr) (oe : Option GoErr) : Except GoErr FS :=
  if (findVal fs.files p).isSome ∨ p ∈ fs.dirs ∨ (findVal fs.links p).isSome then
    .error GoErr.eexist
  else
    match oe with
    | some e => .error e
    | none => .ok { fs with links := (p, target) :: fs.links }

/-- Sets the content of the file at `p` (the effect of `io.Copy` into the
open file handle). -/
def writeFile (fs : FS) (p content : GoStr) : FS :=
  { fs with files := setVal fs.files p content }

/-- The `for attr, data := range h.Xattrs` restore loop shared by
`ExtractDir` and `ExtractReg`: issues one `unix.Setxattr` per attribute and
stops at the first failure. -/
def restoreXattrs (f : GoStr → Option GoErr) : XattrMap → Option GoErr
  | [] => none
  | (a, _) :: rest =>
    match f a with
    | some e => some e
    | none => restoreXattrs f rest

/-- Translation of `ExtractDir` (src/tarski.go lines 232-256): `MkdirAll`
the entry, then chown, xattr restore and chtimes. -/
def extractDir (dest : GoStr) (h : Header) (ops : EntryOps) (fs : FS) :
    Option GoErr × FS :=
  let entry := goJoin dest h.name
  match mkdirAll fs entry ops.mkdirErr with
  | .error e => (some e, fs)
  | .ok fs1 =>
    match ops.chownErr with
    | some e => (some e, fs1)
    | none =>
      match restoreXattrs ops.setxattrErr h.xattrs with
      | some e => (some e, fs1)
      | none =>
        match ops.chtimesErr with
        | some e => (some e, fs1)
        | none => (none, fs1)

/-- Translation of `ExtractReg` (src/tarski.go lines 259-304): `MkdirAll`
the parent, exclusive create, copy the payload, check the byte count
against `fi.Size()` (with the dead `w != h.Size` branch kept, which
returns the still-nil named error), then close, chown, xattr restore and
chtimes. `payload` is the byte sequence `io.Copy` reads from the tar
reader for this entry and `perr` its error outcome. -/
def extractReg (dest : GoStr) (h : Header) (payload : GoStr) (perr : Option GoErr)
    (ops : EntryOps) (fs : FS) : Option GoErr × FS :=
  let entry := goJoin dest h.name
  let filedir := goJoin dest (goDir h.name)
  match mkdirAll fs filedir ops.mkdirErr with
  | .error e => (some e, fs)
  | .ok fs1 =>
    match openExcl fs1 entry ops.openErr with
    | .error e => (some e, fs1)
    | .ok fs2 =>
      let fs3 := writeFile fs2 entry payload
      match perr with
      | some e => (some e, fs3)
      | none =>
        if (payload.length : Int) ≠ fiSize h then
          (some (GoErr.sizeMismatch (fiSize h) payload.length), fs3)
        else if (payload.length : Int) ≠ h.size then (none, fs3)
        else
          match ops.closeErr with
          | some e => (some e, fs3)
          | none =>
            match ops.chownErr with
            | some e => (some e, fs3)
            | none =>
              match restoreXattrs ops.setxattrErr h.xattrs with
              | some e => (some e, fs3)
              | none =>
                match ops.chtimesErr with
                | some e => (some e, fs3)
                | none => (none, fs3)

/-- Translation of `ExtractSymlink` (src/tarski.go lines 307-334):
`MkdirAll` the parent, create the link with the header's target, lchown,
then the link-aware time restore. -/
def extractSymlink (dest : GoStr) (h : Header) (ops : EntryOps) (fs : FS) :
    Option GoErr × FS :=
  let entry := goJoin dest h.name
  let filedir := goJoin dest (goDir h.name)
  match mkdirAll fs filedir ops.mkdirErr with
  | .error e => (some e, fs)
  | .ok fs1 =>
    match symlinkCreate fs1 entry h.linkname ops.symlinkErr with
    | .error e => (some e, fs1)
    | .ok fs2 =>
      match ops.chownErr with
      | some e => (some e, fs2)
      | none =>
        match ops.utimesErr with
        | some e => (some e, fs2)
        | none => (none, fs2)

/-- Translation of `ExtractDev` (src/tarski.go lines 337-365): `MkdirAll`
the parent, exclusively create an empty placeholder file, close, chown,
chtimes. No xattr restore. -/
def extractDev (dest : GoStr) (h : Header) (ops : EntryOps) (fs : FS) :
    Option GoErr × FS :=
  let entry := goJoin dest h.name
  let filedir := goJoin dest (goDir h.name)
  match mkdirAll fs filedir ops.mkdirErr with
  | .error e => (some e, fs)
  | .ok fs1 =>
    match openExcl fs1 entry ops.openErr with
    | .error e => (some e, fs1)
    | .ok fs2 =>
      match ops.closeErr with
      | some e => (some e, fs2)
      | none =>
        match ops.chownErr with
        | some e => (some e, fs2)
        | none =>
          match ops.chtimesErr with
          | some e => (some e, fs2)
          | none => (none, fs2)

/-- One outcome of `r.Next()` on the tar reader together with, for header
outcomes, the payload bytes the reader then yields for the entry and their
read-error outcome, and the OS-call oracle for extracting the entry. The
end of the list models `io.EOF`. -/
inductive TarItem where
  | readErr (e : GoErr)
  | header (h : Header) (payload : GoStr) (perr : Option GoErr) (ops : EntryOps)

/-- Translation of `doExtract` (src/tarski.go lines 203-229). The Go
function declares the named return `err`, but the `for` initializer
`h, err := r.Next()` shadows it, so the `break` taken when `Next` fails
leaves the loop and returns the outer, still-nil `err`: a header-read
error terminates the loop with a `nil` result. Dispatch errors are
returned directly from inside the loop body. -/
def doExtract (dest : GoStr) : List TarItem → FS → Option GoErr × FS
  | [], fs => (none, fs)
  | TarItem.readErr _ :: _, fs => (none, fs)
  | TarItem.header h payload perr ops :: rest, fs =>
    let step :=
      if h.typeflag = '5' then extractDir dest h ops fs
      else if h.typeflag = '2' then extractSymlink dest h ops fs
      else if h.typeflag = '3' ∨ h.typeflag = '4' then extractDev dest h ops fs
      else extractReg dest h payload perr ops fs
    match step with
    | (some e, fs2) => (some e, fs2)
    | (none, fs2) => doExtract dest rest fs2

/-- Translation of `Extract` (src/tarski.go lines 169-183): open the
archive, run `doExtract`, and report its result unless it is `io.EOF` or
`nil`. -/
def Extract (openErr : Option GoErr) (items : List TarItem) (dest : GoStr) (fs : FS) :
    Option GoErr × FS :=
  match openErr with
  | some e => (some e, fs)
  | none =>
    match doExtract dest items fs with
    | (some e, fs2) => if e = GoErr.eof then (none, fs2) else (some e, fs2)
    | (none, fs2) => (none, fs2)

/-! ## Creation (`doCreate`, `Create`, `CreateSHA256`) -/

/-- One visited filesystem object during the `filepath.Walk` traversal of
`doCreate`, with the outcome oracles for the calls made on it:
`headerErr` is the result of `WriteHeader` (readlink, header build, xattr
fetch, header write), `openErr`/`copyErr`/`closeErr` are the results of
the payload copy for regular files. -/
structure CEntry where
  path : GoStr
  isDir : Bool
  isSym : Bool
  isDev : Bool
  headerErr : Option GoErr
  openErr : Option GoErr
  copyErr : Option GoErr
  closeErr : Option GoErr

/-- One invocation of the `filepath.Walk` callback in `doCreate`: either
the walk hands the callback an error for a path, or it visits an object. -/
inductive WalkItem where
  | werr (e : GoErr)
  | ent (c : CEntry)

/-- The body of the walk callback of `doCreate` (src/tarski.go lines
132-165): propagate a walk error, skip entries whose cleaned name is
empty, write the header, and copy the payload for anything that is not a
symlink, device or directory. -/
def docStep (pfx : GoStr) : WalkItem → Option GoErr
  | WalkItem.werr e => some e
  | WalkItem.ent c =>
    let s := cleanEntry c.isDir c.path pfx
    if s = [] then none
    else
      match c.headerErr with
      | some e => some e
      | none =>
        if c.isSym ∨ c.isDev ∨ c.isDir then none
        else
          match c.openErr with
          | some e => some e
          | none =>
            match c.copyErr with
            | some e => some e
            | none =>
              match c.closeErr with
              | some e => some e
              | none => none

/-- Translation of `doCreate` (src/tarski.go lines 131-166): `filepath.Walk`
runs the callback on each visited object in order and stops with the first
non-nil callback result. -/
def doCreate (pfx : GoStr) : List WalkItem → Option GoErr
  | [] => none
  | it :: rest =>
    match docStep pfx it with
    | some e => some e
    | none => doCreate pfx rest

/-- Translation of `Create` (src/tarski.go lines 68-83). The Go body runs
`err = doCreate(w, path, prefix)` and then immediately `if err = w.Close();
err != nil { return }`, so the `doCreate` result is overwritten by the
`Close` result before it is ever tested, and the final `return` yields the
`Close` outcome alone. -/
def Create (osCreateErr : Option GoErr) (pfx : GoStr) (items : List WalkItem)
    (wCloseErr : Option GoErr) : Option GoErr :=
  match osCreateErr with
  | some e => some e
  | none =>
    let _err := doCreate pfx items
    match wCloseErr with
    | some e => some e
    | none => none

/-- State of the `sha256.New()` accumulator: the bytes folded in so far.
The compression itself is the crypto collaborator and is kept abstract:
theorems quantify over the digest function applied by `Sum`. -/
structure HashSt where
  acc : List UInt8
deriving DecidableEq

/-- `hash.Write`: folds bytes into the accumulator. -/
def hashWrite (st : HashSt) (bs : List UInt8) : HashSt := ⟨st.acc ++ bs⟩

/-- State of the `io.MultiWriter(a, b)` fan-out sink of `CreateSHA256`:
the destination file bytes and the hash accumulator. -/
structure MWSt where
  file : List UInt8
  hash : HashSt
deriving DecidableEq

/-- One `Write` through the fan-out sink: the chunk goes to the file and
to the hash. -/
def mwWrite (st : MWSt) (bs : List UInt8) : MWSt :=
  ⟨st.file ++ bs, hashWrite st.hash bs⟩

/-- A sequence of `Write`s through the fan-out sink. -/
def mwWriteAll (st : MWSt) (ws : List (List UInt8)) : MWSt :=
  ws.foldl mwWrite st

/-- Translation of `CreateSHA256` (src/tarski.go lines 44-65). `H` is the
digest function applied by `Sum` (the SHA-256 compression, an external
collaborator); `docWrites` are the byte chunks the tar encoder pushes
through the `MultiWriter` while `doCreate` runs and `docErr` is the
`doCreate` result; `closeWrites` are the chunks `d.Close()` flushes
(padding and footer) and `closeErr` its result. Returns the Go pair
`(checksum, err)` together with the content of the archive file
(`none` when `os.Create` itself failed). -/
def CreateSHA256 (H : List UInt8 → List UInt8) (osCreateErr : Option GoErr)
    (docWrites : List (List UInt8)) (docErr : Option GoErr)
    (closeWrites : List (List UInt8)) (closeErr : Option GoErr) :
    (Option (List UInt8) × Option GoErr) × Option (List UInt8) :=
  match osCreateErr with
  | some e => ((none, some e), none)
  | none =>
    let st1 := mwWriteAll ⟨[], ⟨[]⟩⟩ docWrites
    match docErr with
    | some e => ((none, some e), some st1.file)
    | none =>
      let st2 := mwWriteAll st1 closeWrites
      match closeErr with
      | some e => ((none, some e), some st2.file)
      | none => ((some (H st2.hash.acc), none), some st2.file)

/-! ## Helper lemmas -/

/-- A successful `mkdirAll` never changes the regular files. -/
theorem mkdirAll_ok_files (fs : FS) (p : GoStr) (oe : Option GoErr) (fs1 : FS)
    (hmk : mkdirAll fs p oe = Except.ok fs1) : fs1.files = fs.files := by
  cases oe with
  | some e => simp [mkdirAll] at hmk
  | none =>
    simp only [mkdirAll] at hmk
    split at hmk
    · exact absurd hmk (by simp)
    · split at hmk <;> (injection hmk with hh; rw [← hh])

/-- Restoring xattrs with an always-succeeding `Setxattr` succeeds. -/
theorem restoreXattrs_all_ok (l : XattrMap) : restoreXattrs (fun _ => none) l = none := by
  induction l with
  | nil => rfl
  | cons kv rest ih => obtain ⟨a, v⟩ := kv; simpa [restoreXattrs] using ih

/-- The fan-out sink keeps the file bytes and the hashed bytes equal. -/
theorem mwWriteAll_sync (ws : List (List UInt8)) :
    ∀ st : MWSt, st.file = st.hash.acc →
      (mwWriteAll st ws).file = (mwWriteAll st ws).hash.acc := by
  induction ws with
  | nil => intro st hsync; simpa [mwWriteAll] using hsync
  | cons w ws ih =>
    intro st hsync
    simp only [mwWriteAll, List.foldl_cons]
    simp only [mwWriteAll] at ih
    exact ih (mwWrite st w) (by simp [mwWrite, hashWrite, hsync])

/-- Stripping the single leading slash of a remainder that is neither
empty nor exactly `"/"` leaves a nonempty string. -/
theorem dropLeadSlash_ne_nil (e : GoStr) (h1 : e ≠ []) (h2 : e ≠ ['/']) :
    dropLeadSlash e ≠ [] := by
  unfold dropLeadSlash
  cases e with
  | nil => exact absurd rfl h1
  | cons a t =>
    by_cases ha : a = '/'
    · subst ha
      cases t with
      | nil => exact absurd rfl h2
      | cons b t2 => simp
    · simp [ha]

/-! ## Claim theorems -/

/-- Claim C1 (code bug in `Create`, src/tarski.go lines 68-83): the claim
says a traversal error always makes `Create` return a non-nil error. The
code assigns `err = doCreate(w, path, prefix)` and then immediately
overwrites `err` with `w.Close()`, so a walk error followed by a
successful close is swallowed: here the walk callback receives an error,
`doCreate` propagates it, and `Create` still returns `nil`. -/
theorem create_drops_traversal_error :
    doCreate [] [WalkItem.werr (GoErr.msg "open subdir: permission denied")] =
      some (GoErr.msg "open subdir: permission denied") ∧
    Create none [] [WalkItem.werr (GoErr.msg "open subdir: permission denied")] none = none :=
  ⟨rfl, rfl⟩

/-- Claim C2 (code bug in `doExtract`/`Extract`, src/tarski.go lines
169-229): the claim says a non-end-of-stream header-read error is returned
to the caller. The loop initializer `h, err := r.Next()` shadows the named
return `err`, so the `break` taken on a read failure leaves the outer
`err` nil: a corrupt-header error from `Next` makes both `doExtract` and
`Extract` report success. -/
theorem extract_drops_header_read_error :
    doExtract [] [TarItem.readErr (GoErr.msg "archive/tar: invalid tar header")] emptyFS =
      (none, emptyFS) ∧
    Extract none [TarItem.readErr (GoErr.msg "archive/tar: invalid tar header")] [] emptyFS =
      (none, emptyFS) :=
  ⟨rfl, rfl⟩

/-- Claim C5: when the initial name-list size query returns zero,
`GetAllXattr` returns a nil map and a nil error, whatever the rest of the
syscall outcomes would have been. -/
theorem getAllXattr_zero_names_success (post : Int × Option GoErr) (buf : GoStr)
    (gp gpo : GoStr → Int × Option GoErr) (gb : GoStr → GoStr) :
    GetAllXattr ⟨(0, none), post, buf, gp, gpo, gb⟩ = (none, none) := by
  simp [GetAllXattr]

/-- Claim C3: when the first name-list size query succeeds with a positive
size and the second succeeds with a different (non-negative) size,
`GetAllXattr` fails with the distinguished "changed during retrieval"
error and returns no attribute map. -/
theorem getAllXattr_list_size_mismatch_fails (n m : Int) (buf : GoStr)
    (gp gpo : GoStr → Int × Option GoErr) (gb : GoStr → GoStr)
    (hn : 0 < n) (hm : 0 ≤ m) (hne : m ≠ n) :
    GetAllXattr ⟨(n, none), (m, none), buf, gp, gpo, gb⟩ = (none, some GoErr.changed) := by
  have g1 : ¬ n < 0 := not_lt.mpr hn.le
  have g2 : n ≠ 0 := hn.ne'
  have g3 : ¬ m < 0 := not_lt.mpr hm
  simp [GetAllXattr, g1, g2, g3, hne]

/-- Witness for C3: a concrete syscall trace where the two list-size
queries return 2 and 1. -/
theorem getAllXattr_list_size_mismatch_fails_witness :
    GetAllXattr ⟨(2, none), (1, none), [], fun _ => (0, none), fun _ => (0, none), fun _ => []⟩ =
      (none, some GoErr.changed) :=
  getAllXattr_list_size_mismatch_fails 2 1 [] (fun _ => (0, none)) (fun _ => (0, none))
    (fun _ => []) (by decide) (by decide) (by decide)

/-- Claim C4: in the value loop of `GetAllXattr`, at any reached position
of the name list, a zero value-size response is an error (not an empty
value) and a second value-size query disagreeing with the first (both
succeeding, sizes non-negative) is the "changed during retrieval" error;
in either case no attribute map is returned. -/
theorem getAllXattr_value_strictness (sys : XattrSys) (x : GoStr) (rest : List GoStr)
    (acc : XattrMap) :
    (sys.getPre x = (0, none) →
      getValuesLoop sys (x :: rest) acc = (none, some GoErr.noValidValue)) ∧
    (∀ n m : Int, sys.getPre x = (n, none) → 0 < n → sys.getPost x = (m, none) →
      0 ≤ m → m ≠ n →
      getValuesLoop sys (x :: rest) acc = (none, some GoErr.changed)) := by
  constructor
  · intro hz
    simp [getValuesLoop, hz]
  · intro n m h1 hn h2 hm hne
    have g1 : ¬ n < 0 := not_lt.mpr hn.le
    have g2 : n ≠ 0 := hn.ne'
    have g3 : ¬ m < 0 := not_lt.mpr hm
    simp [getValuesLoop, h1, h2, g1, g2, g3, hne]

/-- Witness for C4: concrete syscall traces hitting the zero-size case and
the size-disagreement case on the first listed name. -/
theorem getAllXattr_value_strictness_witness :
    getValuesLoop ⟨(1, none), (1, none), [], fun _ => (0, none), fun _ => (0, none), fun _ => []⟩
      [['a']] [] = (none, some GoErr.noValidValue) ∧
    getValuesLoop ⟨(1, none), (1, none), [], fun _ => (2, none), fun _ => (1, none), fun _ => []⟩
      [['a']] [] = (none, some GoErr.changed) :=
  ⟨(getAllXattr_value_strictness _ ['a'] [] []).1 rfl,
   (getAllXattr_value_strictness _ ['a'] [] []).2 2 1 rfl (by decide) rfl (by decide) (by decide)⟩

/-- Claim C6, counterexample: for a path whose remainder after prefix
removal is exactly the root `"/"`, `cleanEntry` yields `"/"` and not, as
the claim states, the empty string (compare `cleanEntrySpecC6`, the
transform as the claim words it). -/
theorem cleanEntry_root_remainder_counterexample :
    trimPref "/a/".toList "/a".toList = "/".toList ∧
    cleanEntry false "/a/".toList "/a".toList ≠ [] ∧
    cleanEntrySpecC6 false "/a/".toList "/a".toList = [] := by decide

/-- Claim C6, amended: `cleanEntry` yields the empty string exactly when
the prefix removal leaves nothing (prefix equals path); a remainder of
exactly `"/"` is returned unchanged as `"/"`; any other remainder has a
single leading separator removed and, for directories, a trailing
separator appended when not already present. -/
theorem cleanEntry_amended_behavior (isDir : Bool) (path pfx : GoStr) :
    (cleanEntry isDir path pfx = [] ↔ trimPref path pfx = []) ∧
    (trimPref path pfx = ['/'] → cleanEntry isDir path pfx = ['/']) ∧
    (trimPref path pfx ≠ [] → trimPref path pfx ≠ ['/'] →
      cleanEntry isDir path pfx =
        if isDir ∧ (dropLeadSlash (trimPref path pfx)).getLast? ≠ some '/' then
          dropLeadSlash (trimPref path pfx) ++ ['/']
        else dropLeadSlash (trimPref path pfx)) := by
  refine ⟨⟨fun hres => ?_, fun hres => by simp [cleanEntry, hres]⟩,
    fun hres => by simp [cleanEntry, hres],
    fun h1 h2 => by
      simp only [cleanEntry]
      rw [if_neg (not_or.mpr ⟨h1, h2⟩)]⟩
  by_cases h1 : trimPref path pfx = []
  · exact h1
  · exfalso
    by_cases h2 : trimPref path pfx = ['/']
    · simp [cleanEntry, h2] at hres
    · have hne := dropLeadSlash_ne_nil (trimPref path pfx) h1 h2
      simp only [cleanEntry] at hres
      rw [if_neg (not_or.mpr ⟨h1, h2⟩)] at hres
      split at hres
      · simp at hres
      · exact hne hres

/-- Witness for the amended C6: a concrete directory path whose remainder
is the root separator comes back as `"/"`. -/
theorem cleanEntry_amended_behavior_witness :
    trimPref "/x/".toList "/x".toList = "/".toList ∧
    cleanEntry true "/x/".toList "/x".toList = "/".toList :=
  ⟨by decide, (cleanEntry_amended_behavior true "/x/".toList "/x".toList).2.1 (by decide)⟩

/-- Claim C7: once the payload copy of a regular-file entry has run, a
byte count differing from the stat-derived size (`fi.Size()`) or from the
header's declared size makes `ExtractReg` fail with a non-nil error,
whatever the remaining call outcomes: the first mismatch check fires
before the dead `w != h.Size` branch can be reached, since
`fi.Size() = h.Size` for a tar header. -/
theorem extractReg_size_mismatch_fails (dest : GoStr) (h : Header) (payload : GoStr)
    (perr : Option GoErr) (ops : EntryOps) (fs : FS)
    (hmis : (payload.length : Int) ≠ fiSize h ∨ (payload.length : Int) ≠ h.size) :
    (extractReg dest h payload perr ops fs).1.isSome := by
  have hm : (payload.length : Int) ≠ h.size := by
    cases hmis with
    | inl h0 => simpa [fiSize] using h0
    | inr h0 => exact h0
  cases hmk : mkdirAll fs (goJoin dest (goDir h.name)) ops.mkdirErr with
  | error e => simp [extractReg, hmk]
  | ok fs1 =>
    cases hop : openExcl fs1 (goJoin dest h.name) ops.openErr with
    | error e => simp [extractReg, hmk, hop]
    | ok fs2 =>
      cases perr with
      | some e => simp [extractReg, hmk, hop]
      | none => simp [extractReg, hmk, hop, fiSize, hm]

/-- Witness for C7: extracting a header that declares five payload bytes
while the stream yields none fails. -/
theorem extractReg_size_mismatch_fails_witness :
    (extractReg [] ⟨'0', ['f'], [], 5, 420, 0, 0, []⟩ [] none noErrOps emptyFS).1.isSome :=
  extractReg_size_mismatch_fails [] ⟨'0', ['f'], [], 5, 420, 0, 0, []⟩ [] none noErrOps emptyFS
    (Or.inr (by decide))

/-- Claim C8: when the destination path of a regular-file entry already
holds a file, `ExtractReg` fails (the exclusive create reports `eexist`)
and the filesystem's files — in particular the pre-existing file's
contents — are left exactly as they were. -/
theorem extractReg_no_overwrite (dest : GoStr) (h : Header) (payload : GoStr)
    (perr : Option GoErr) (ops : EntryOps) (fs : FS)
    (hex : (findVal fs.files (goJoin dest h.name)).isSome) :
    (extractReg dest h payload perr ops fs).1.isSome ∧
    (extractReg dest h payload perr ops fs).2.files = fs.files := by
  cases hmk : mkdirAll fs (goJoin dest (goDir h.name)) ops.mkdirErr with
  | error e => simp [extractReg, hmk]
  | ok fs1 =>
    have hf : fs1.files = fs.files := mkdirAll_ok_files _ _ _ _ hmk
    have hop : openExcl fs1 (goJoin dest h.name) ops.openErr = .error GoErr.eexist := by
      unfold openExcl
      rw [if_pos (Or.inl (by rw [hf]; exact hex))]
    simp [extractReg, hmk, hop, hf]

/-- Witness for C8: extracting entry `a` into a destination that already
has a file `a` with content `q` fails and keeps the file list unchanged. -/
theorem extractReg_no_overwrite_witness :
    (extractReg [] ⟨'0', ['a'], [], 0, 420, 0, 0, []⟩ ['x'] none noErrOps
      ⟨[], [(['a'], ['q'])], []⟩).1.isSome ∧
    (extractReg [] ⟨'0', ['a'], [], 0, 420, 0, 0, []⟩ ['x'] none noErrOps
      ⟨[], [(['a'], ['q'])], []⟩).2.files = [(['a'], ['q'])] :=
  extractReg_no_overwrite [] ⟨'0', ['a'], [], 0, 420, 0, 0, []⟩ ['x'] none noErrOps
    ⟨[], [(['a'], ['q'])], []⟩ (by decide)

/-- Claim C9: whenever `CreateSHA256` succeeds, the digest it returns is
the digest function applied to exactly the bytes of the archive file it
produced — the fan-out sink feeds the file and the accumulator the same
byte stream, for any digest function `H`. -/
theorem createSHA256_digest_matches_file (H : List UInt8 → List UInt8)
    (oerr derr cerr : Option GoErr) (dw cw : List (List UInt8)) (d F : List UInt8)
    (hok : CreateSHA256 H oerr dw derr cw cerr = ((some d, none), some F)) :
    d = H F := by
  cases oerr with
  | some e => simp [CreateSHA256] at hok
  | none =>
    cases derr with
    | some e => simp [CreateSHA256] at hok
    | none =>
      cases cerr with
      | some e => simp [CreateSHA256] at hok
      | none =>
        simp only [CreateSHA256] at hok
        have hsync :=
          mwWriteAll_sync cw (mwWriteAll ⟨[], ⟨[]⟩⟩ dw) (mwWriteAll_sync dw ⟨[], ⟨[]⟩⟩ rfl)
        simp only [Prod.mk.injEq, Option.some.injEq] at hok
        obtain ⟨⟨hd, -⟩, hF⟩ := hok
        rw [← hd, ← hF, hsync]

/-- Witness for C9: a concrete run whose digest (under the identity digest
function) equals the produced file bytes. -/
theorem createSHA256_digest_matches_file_witness :
    CreateSHA256 (fun l => l) none [[1, 2]] none [[3]] none =
      ((some [1, 2, 3], none), some [1, 2, 3]) ∧
    ([1, 2, 3] : List UInt8) = (fun l : List UInt8 => l) [1, 2, 3] :=
  ⟨rfl, createSHA256_digest_matches_file (fun l => l) none none none [[1, 2]] [[3]]
    [1, 2, 3] [1, 2, 3] rfl⟩

/-- Claim C10: a header whose type flag is none of directory (`'5'`),
symlink (`'2'`), char device (`'3'`) or block device (`'4'`) — hard links
(`'1'`), fifos (`'6'`), unknown flags — is dispatched by `doExtract` to
the regular-file extractor, which creates a regular file with the entry's
payload at the destination rather than rejecting the entry. -/
theorem doExtract_other_typeflags_regular (dest : GoStr) (h : Header) (payload : GoStr)
    (fs : FS)
    (h5 : h.typeflag ≠ '5') (h2 : h.typeflag ≠ '2')
    (h3 : h.typeflag ≠ '3') (h4 : h.typeflag ≠ '4')
    (hsz : (payload.length : Int) = h.size)
    (hfile : findVal fs.files (goJoin dest h.name) = none)
    (hdir : goJoin dest h.name ∉ fs.dirs)
    (hlink : findVal fs.links (goJoin dest h.name) = none)
    (hpfile : findVal fs.files (goJoin dest (goDir h.name)) = none)
    (hplink : findVal fs.links (goJoin dest (goDir h.name)) = none)
    (hne : goJoin dest h.name ≠ goJoin dest (goDir h.name)) :
    (doExtract dest [TarItem.header h payload none noErrOps] fs).1 = none ∧
    findVal (doExtract dest [TarItem.header h payload none noErrOps] fs).2.files
      (goJoin dest h.name) = some payload := by
  by_cases hd : goJoin dest (goDir h.name) ∈ fs.dirs
  · have hmk : mkdirAll fs (goJoin dest (goDir h.name)) none = Except.ok fs := by
      simp [mkdirAll, hpfile, hplink, hd]
    have hop : openExcl fs (goJoin dest h.name) none =
        Except.ok { fs with files := (goJoin dest h.name, []) :: fs.files } := by
      simp only [openExcl]
      split
      · rename_i hcond
        exact absurd hcond (by simp [hfile, hdir, hlink])
      · rfl
    simp [doExtract, h5, h2, h3, h4, extractReg, noErrOps, hmk, hop, writeFile, setVal,
      fiSize, hsz, restoreXattrs_all_ok, findVal]
  · have hmk : mkdirAll fs (goJoin dest (goDir h.name)) none =
        Except.ok { fs with dirs := goJoin dest (goDir h.name) :: fs.dirs } := by
      simp [mkdirAll, hpfile, hplink, hd]
    have hop : openExcl { fs with dirs := goJoin dest (goDir h.name) :: fs.dirs }
        (goJoin dest h.name) none =
        Except.ok { { fs with dirs := goJoin dest (goDir h.name) :: fs.dirs } with
          files := (goJoin dest h.name, []) :: fs.files } := by
      simp only [openExcl]
      split
      · rename_i hcond
        exact absurd hcond (by simp [hfile, hlink, hne, hdir])
      · rfl
    simp [doExtract, h5, h2, h3, h4, extractReg, noErrOps, hmk, hop, writeFile, setVal,
      fiSize, hsz, restoreXattrs_all_ok, findVal]

/-- Witness for C10: a hard-link entry (`typeflag '1'`, empty payload)
extracted into an empty destination becomes a regular empty file. -/
theorem doExtract_other_typeflags_regular_witness :
    (doExtract [] [TarItem.header ⟨'1', ['h'], [], 0, 420, 0, 0, []⟩ [] none noErrOps]
      emptyFS).1 = none ∧
    findVal (doExtract [] [TarItem.header ⟨'1', ['h'], [], 0, 420, 0, 0, []⟩ [] none noErrOps]
      emptyFS).2.files (goJoin [] ['h']) = some [] :=
  doExtract_other_typeflags_regular [] ⟨'1', ['h'], [], 0, 420, 0, 0, []⟩ [] emptyFS
    (by decide) (by decide) (by decide) (by decide) (by decide) (by decide) (by decide)
    (by decide) (by decide) (by decide) (by decide)





